import Mathlib

/-!
Verification of the SEM campaign builder pipeline.

This file gives a shallow embedding, in Lean 4, of the scoring,
classification, CPC-range aggregation, budget allocation, deduplication and
metric-estimation code of the repository, and proves the testable
properties stated for those components.

Conventions of the embedding:
* Python floats are modelled as exact rationals (`ℚ`).
* `average_monthly_searches` is modelled as `ℕ`: the field is an `int` in the
  source, and every producer in the repository yields a non-negative value
  (scraped digit strings, `randint` with positive bounds, the default `0`),
  matching the data model, which declares it a non-negative integer.
* Python's true division `/` on rationals is total in Lean (`x / 0 = 0`).
  Where a claim must observe a possible `ZeroDivisionError` (the budget
  allocator's truncation branch, the consolidation statistics), the
  embedding returns `Option.none` instead, so that raising is observable;
  in the relevance scorer the batch maxima can in principle be zero and the
  source would raise, so the theorems about it carry hypotheses excluding
  that degenerate case.
* Python dictionaries with optional entries are structures of `Option` fields;
  `dict.get(k, default)` becomes `Option.getD`.
* Python's `list.sort` / `sorted` are stable sorts; they are modelled with
  `List.insertionSort`, which is also stable, and two stable sorts of the
  same list under the same total preorder produce the same output.
* String helpers (`lower`, `strip`, `split`, substring tests) are implemented
  structurally over `String.data` so they compute by `decide`; they agree with
  the corresponding Python methods on the ASCII inputs the program handles.
-/

/-! ## String helpers (structural models of Python string methods) -/

/-- Model of Python `str.lower()` (ASCII case folding). -/
def lowerStr (s : String) : String :=
  ⟨s.data.map Char.toLower⟩

/-- Model of Python `str.strip()`: drop leading and trailing whitespace. -/
def stripStr (s : String) : String :=
  ⟨((((s.data.dropWhile Char.isWhitespace).reverse).dropWhile
      Char.isWhitespace).reverse)⟩

/-- Model of Python's substring containment `pat in hay` on char lists. -/
def containsAux (hay pat : List Char) : Bool :=
  match hay with
  | [] => pat.isEmpty
  | _ :: t => pat.isPrefixOf hay || containsAux t pat

/-- Model of Python's substring test `pat in s`. -/
def containsStr (s pat : String) : Bool :=
  containsAux s.data pat.data

/-- True when the term contains at least one of the listed substrings;
models Python `any(p in s for p in pats)`. -/
def anyContains (s : String) (pats : List String) : Bool :=
  pats.any (fun p => containsStr s p)

/-- Counts maximal whitespace-free runs; the Boolean flag records whether the
scan is currently inside a word. -/
def wordCountAux : List Char → Bool → ℕ
  | [], _ => 0
  | c :: t, inWord =>
    if c.isWhitespace then wordCountAux t false
    else (if inWord then 0 else 1) + wordCountAux t true

/-- Model of Python `len(s.split())`: the number of whitespace-separated
words of `s`. -/
def wordCount (s : String) : ℕ :=
  wordCountAux s.data false

/-! ## Data model (src/models/keyword.py) -/

/-- Enumeration `CompetitionLevel` of src/models/keyword.py. -/
inductive CompetitionLevel where
  | low
  | medium
  | high
deriving DecidableEq, Inhabited

/-- Enumeration `MatchType` of src/models/keyword.py. -/
inductive MatchType where
  | exact
  | phrase
  | broad
deriving DecidableEq, Inhabited

/-- Dataclass `KeywordMetrics` of src/models/keyword.py. -/
structure KeywordMetrics where
  average_monthly_searches : ℕ
  top_of_page_bid_low : ℚ
  top_of_page_bid_high : ℚ
  competition_level : CompetitionLevel
deriving DecidableEq, Inhabited

/-- Dataclass `Keyword` of src/models/keyword.py. -/
structure Keyword where
  term : String
  metrics : KeywordMetrics
  suggested_match_type : MatchType
  relevance_score : ℚ
  ad_group_assignment : Option String
deriving DecidableEq, Inhabited

/-- Dataclass `AdGroup` of src/models/keyword.py. -/
structure AdGroup where
  name : String
  intent_category : String
  keywords : List Keyword
  suggested_cpc_range : ℚ × ℚ
  theme_description : String
deriving DecidableEq, Inhabited

/-- Dataclass `SearchCampaign` of src/models/keyword.py. -/
structure SearchCampaign where
  name : String
  ad_groups : List AdGroup
  total_budget : ℚ
  target_conversion_rate : ℚ
deriving DecidableEq, Inhabited

/-- A raw keyword dictionary as passed between collectors, main.py and the
processor; absent dictionary keys are `none`. -/
structure RawKeywordData where
  keyword : Option String
  search_volume : Option ℕ
  competition : Option String
  cpc_low : Option ℚ
  cpc_high : Option ℚ
  data_source : Option String
deriving DecidableEq, Inhabited

/-! ## Budget allocator (src/generators/search_campaign_generator.py) -/

/-- Average of the suggested CPC range of a group:
`(ag.suggested_cpc_range[0] + ag.suggested_cpc_range[1]) / 2`. -/
def avg_group_cpc (ag : AdGroup) : ℚ :=
  (ag.suggested_cpc_range.1 + ag.suggested_cpc_range.2) / 2

/-- Naive estimated monthly spend of a group:
`avg_group_cpc * keyword_count * 30`. -/
def estimated_group_spend (ag : AdGroup) : ℚ :=
  avg_group_cpc ag * (ag.keywords.length : ℚ) * 30

/-- Total estimated spend across a list of groups. -/
def total_estimated_spend (ad_groups : List AdGroup) : ℚ :=
  (ad_groups.map estimated_group_spend).sum

/-- ROAS potential score of an ad group, from
`_calculate_ad_group_roas_score`. -/
def calculate_ad_group_roas_score (ad_group : AdGroup) : ℚ :=
  if ad_group.keywords = [] then 0
  else
    let intent := lowerStr ad_group.intent_category
    let intent_score : ℚ :=
      if containsStr intent "brand" then 0.4
      else if containsStr intent "commercial" || containsStr intent "competitor" then 0.35
      else if containsStr intent "category" || containsStr intent "product" then 0.3
      else if containsStr intent "location" then 0.25
      else 0.15
    let total_volume : ℕ :=
      (ad_group.keywords.map (fun kw => kw.metrics.average_monthly_searches)).sum
    let volume_score : ℚ :=
      if 100000 ≤ total_volume then 0.3
      else if 50000 ≤ total_volume then 0.25
      else if 10000 ≤ total_volume then 0.2
      else 0.1
    let avg_cpc := avg_group_cpc ad_group
    let efficiency_score : ℚ :=
      if avg_cpc ≤ 1 then 0.2
      else if avg_cpc ≤ 2 then 0.15
      else if avg_cpc ≤ 4 then 0.1
      else 0.05
    let keyword_count := ad_group.keywords.length
    let diversification_score : ℚ :=
      if 20 ≤ keyword_count then 0.1
      else if 10 ≤ keyword_count then 0.08
      else if 5 ≤ keyword_count then 0.05
      else 0.02
    min (intent_score + volume_score + efficiency_score + diversification_score) 1

/-- Sorting by descending ROAS score, from `_prioritize_ad_groups`: score
each group, stably sort the pairs by score descending, extract the groups.
Python's `list.sort(key=..., reverse=True)` is a stable descending sort,
modelled by a stable insertion sort under the same preorder. -/
def prioritize_ad_groups (ad_groups : List AdGroup) : List AdGroup :=
  let scored := ad_groups.map (fun ag => (ag, calculate_ad_group_roas_score ag))
  (List.insertionSort (fun a b : AdGroup × ℚ => b.2 ≤ a.2) scored).map Prod.fst

/-- Python `int()` applied to a rational: truncation toward zero. -/
def pyInt (q : ℚ) : ℤ :=
  if 0 ≤ q then ⌊q⌋ else ⌈q⌉

/-- Stable sort of keywords by descending relevance score, from
`sorted(ag.keywords, key=lambda k: k.relevance_score, reverse=True)`. -/
def sort_keywords_by_relevance (kws : List Keyword) : List Keyword :=
  List.insertionSort (fun a b : Keyword => b.relevance_score ≤ a.relevance_score) kws

/-- The truncated copy of a group built in the overflow branch of
`_optimize_ad_groups_for_budget`: name suffixed, keywords cut to the top
`n` by relevance, every other field taken from the original. -/
def truncated_ad_group (ag : AdGroup) (n : ℕ) : AdGroup :=
  { name := ag.name ++ " (Optimized)"
    intent_category := ag.intent_category
    keywords := (sort_keywords_by_relevance ag.keywords).take n
    suggested_cpc_range := ag.suggested_cpc_range
    theme_description := ag.theme_description }

/-- The greedy selection loop of `_optimize_ad_groups_for_budget`, over the
already prioritized list. `running` is the running spend. Returns `none`
exactly when Python would raise `ZeroDivisionError` in
`int(remaining_budget / (avg_group_cpc * 30))`. -/
def greedy_select (budget : ℚ) : ℚ → List AdGroup → Option (List AdGroup)
  | _, [] => some []
  | running, ag :: rest =>
    let spend := estimated_group_spend ag
    if running + spend ≤ budget then
      (greedy_select budget (running + spend) rest).map (fun out => ag :: out)
    else
      let divisor := avg_group_cpc ag * 30
      if divisor = 0 then none
      else
        let max_keywords := pyInt ((budget - running) / divisor)
        if 0 < max_keywords then some [truncated_ad_group ag max_keywords.toNat]
        else some []

/-- Embedding of `_optimize_ad_groups_for_budget`. -/
def optimize_ad_groups_for_budget (budget : ℚ) (ad_groups : List AdGroup) :
    Option (List AdGroup) :=
  if ad_groups = [] then some ad_groups
  else if total_estimated_spend ad_groups ≤ budget then some ad_groups
  else greedy_select budget 0 (prioritize_ad_groups ad_groups)

/-- Embedding of `create_search_campaign` (budget and conversion rate are the
generator's constructor arguments). -/
def create_search_campaign (budget target_conversion_rate : ℚ)
    (ad_groups : List AdGroup) : Option SearchCampaign :=
  (optimize_ad_groups_for_budget budget ad_groups).map (fun optimized =>
    { name := "SEM Campaign - Search"
      ad_groups := optimized
      total_budget := budget
      target_conversion_rate := target_conversion_rate })

/-! ## Relevance scorer (src/processors/huggingface_processor.py) -/

/-- Python `max` over a nonempty list of naturals (`max(...)` raises on an
empty list; the scorer only calls it on nonempty batches). -/
def pyMaxNat : List ℕ → ℕ
  | [] => 0
  | x :: xs => xs.foldl max x

/-- Python `max` over a nonempty list of rationals. -/
def pyMaxRat : List ℚ → ℚ
  | [] => 0
  | x :: xs => xs.foldl max x

/-- Fixed competition component lookup of `_calculate_relevance_scores`. -/
def comp_score : CompetitionLevel → ℚ
  | CompetitionLevel.low => 0.2
  | CompetitionLevel.medium => 0.15
  | CompetitionLevel.high => 0.1

/-- Domain-relevance bonus and penalty of `_calculate_relevance_scores`,
computed from the lowercased term. -/
def relevance_bonus (term_lower : String) : ℚ :=
  (if anyContains term_lower
      ["business intelligence", "bi software", "analytics platform"] then 0.25
   else if anyContains term_lower
      ["analytics", "dashboard", "reporting", "data visualization"] then 0.2
   else if anyContains term_lower ["data", "insights", "intelligence"] then 0.1
   else 0)
  + (if anyContains term_lower ["cubehq", "cube"] then 0.2 else 0)
  + (if anyContains term_lower ["software", "platform", "tool", "solution"] then 0.15 else 0)
  + (if anyContains term_lower ["get", "see", "more", "over", "the", "and"] then -0.1 else 0)

/-- Score one keyword against the batch statistics, as in the loop body of
`_calculate_relevance_scores`. -/
def score_keyword (max_volume : ℕ) (max_cpc : ℚ) (kw : Keyword) : Keyword :=
  let term_lower := lowerStr kw.term
  let volume_score : ℚ :=
    ((kw.metrics.average_monthly_searches : ℚ) / (max_volume : ℚ)) * 0.3
  let competition_score := comp_score kw.metrics.competition_level
  let avg_cpc := (kw.metrics.top_of_page_bid_low + kw.metrics.top_of_page_bid_high) / 2
  let cpc_efficiency := max 0 ((max_cpc - avg_cpc) / max_cpc) * 0.2
  let new_score :=
    min 1 (volume_score + competition_score + cpc_efficiency + relevance_bonus term_lower)
  { kw with relevance_score := new_score }

/-- Embedding of `_calculate_relevance_scores`: batch statistics are computed
once, then every keyword receives its score. -/
def calculate_relevance_scores (keywords : List Keyword) : List Keyword :=
  match keywords with
  | [] => []
  | _ =>
    let max_volume := pyMaxNat (keywords.map (fun kw => kw.metrics.average_monthly_searches))
    let max_cpc := pyMaxRat (keywords.map (fun kw => kw.metrics.top_of_page_bid_high))
    keywords.map (score_keyword max_volume max_cpc)

/-- Embedding of `_suggest_match_type`. -/
def suggest_match_type (keyword_text : String) (metrics : KeywordMetrics) : MatchType :=
  let word_count := wordCount keyword_text
  let search_volume := metrics.average_monthly_searches
  if anyContains (lowerStr keyword_text) ["cubehq", "cube hq"] then MatchType.exact
  else if word_count ≤ 2 ∧ 2000 < search_volume then MatchType.phrase
  else if 4 ≤ word_count then MatchType.exact
  else MatchType.broad

/-- Parse a competition string as in `process_raw_keywords`. -/
def parse_competition (s : String) : CompetitionLevel :=
  let c := lowerStr s
  if c = "low" then CompetitionLevel.low
  else if c = "high" then CompetitionLevel.high
  else CompetitionLevel.medium

/-- Embedding of `process_raw_keywords`: volume filter, keyword construction,
batch scoring, descending sort, relevance threshold, cap at 200. -/
def process_raw_keywords (raw_keywords : List RawKeywordData) (min_volume : ℕ) :
    List Keyword :=
  let processed := raw_keywords.filterMap (fun kw_data =>
    let keyword_text := stripStr (kw_data.keyword.getD "")
    let search_volume := kw_data.search_volume.getD 0
    if search_volume < min_volume then none
    else
      let metrics : KeywordMetrics :=
        { average_monthly_searches := search_volume
          top_of_page_bid_low := kw_data.cpc_low.getD 0.5
          top_of_page_bid_high := kw_data.cpc_high.getD 2.0
          competition_level := parse_competition (kw_data.competition.getD "medium") }
      some { term := keyword_text
             metrics := metrics
             suggested_match_type := suggest_match_type keyword_text metrics
             relevance_score := 0
             ad_group_assignment := none })
  let scored := calculate_relevance_scores processed
  let sorted := sort_keywords_by_relevance scored
  let high_quality := sorted.filter (fun kw => 0.4 ≤ kw.relevance_score)
  if 200 < high_quality.length then high_quality.take 200 else high_quality

/-! ## Rule-based intent classifier (src/processors/huggingface_processor.py) -/

/-- The eight fixed buckets of `_create_enhanced_rule_based_groups`. -/
inductive Bucket where
  | brandTerms
  | locationQueries
  | coreBI
  | commercialIntent
  | dataAnalytics
  | longTail
  | competitiveAnalysis
  | technicalFeatures
deriving DecidableEq, Inhabited, Fintype

/-- Group (dictionary key) name of a bucket. -/
def bucket_name : Bucket → String
  | Bucket.brandTerms => "Brand Terms"
  | Bucket.locationQueries => "Location-based Queries"
  | Bucket.coreBI => "Core Business Intelligence"
  | Bucket.commercialIntent => "Commercial Intent High-Value"
  | Bucket.dataAnalytics => "Data Analytics Solutions"
  | Bucket.longTail => "Long-Tail Opportunities"
  | Bucket.competitiveAnalysis => "Competitive Analysis"
  | Bucket.technicalFeatures => "Technical Features"

/-- Intent category of a bucket. -/
def bucket_intent : Bucket → String
  | Bucket.brandTerms => "Brand Terms"
  | Bucket.locationQueries => "Location-based Queries"
  | Bucket.coreBI => "Category Terms"
  | Bucket.commercialIntent => "Commercial Intent"
  | Bucket.dataAnalytics => "Product-specific Terms"
  | Bucket.longTail => "Long-Tail Informational Queries"
  | Bucket.competitiveAnalysis => "Competitor Terms"
  | Bucket.technicalFeatures => "Product-specific Terms"

/-- Theme description of a bucket. -/
def bucket_description : Bucket → String
  | Bucket.brandTerms =>
      "Brand name variations and company-specific terms (CubeHQ, brand + modifiers)"
  | Bucket.locationQueries =>
      "Geographic-targeted business intelligence and analytics keywords"
  | Bucket.coreBI => "Primary business intelligence and analytics keywords"
  | Bucket.commercialIntent =>
      "Keywords showing strong buying intent and commercial value"
  | Bucket.dataAnalytics =>
      "Specific data analytics and dashboard-related keywords"
  | Bucket.longTail => "Specific, lower competition long-tail keywords"
  | Bucket.competitiveAnalysis =>
      "Keywords related to competitor analysis and comparison"
  | Bucket.technicalFeatures => "Technical features and capabilities keywords"

/-- Insertion order of the `groups` dictionary of
`_create_enhanced_rule_based_groups` (Python dictionaries iterate in
insertion order). -/
def bucket_order : List Bucket :=
  [Bucket.brandTerms, Bucket.locationQueries, Bucket.coreBI,
   Bucket.commercialIntent, Bucket.dataAnalytics, Bucket.longTail,
   Bucket.competitiveAnalysis, Bucket.technicalFeatures]

/-- The if/elif classification chain of `_create_enhanced_rule_based_groups`:
each keyword is assigned to exactly one bucket. -/
def classify_keyword (keyword : Keyword) : Bucket :=
  let term_lower := lowerStr keyword.term
  let word_count := wordCount keyword.term
  let search_volume := keyword.metrics.average_monthly_searches
  if anyContains term_lower
       ["cubehq", "cube hq", "cube", "login", "demo", "pricing", "reviews", "alternatives"]
     ∧ anyContains term_lower ["cubehq", "cube"] then Bucket.brandTerms
  else if anyContains term_lower
       ["bengaluru", "mumbai", "delhi", "hyderabad", "bangalore", "chennai", "pune", "kolkata"]
     ∨ containsStr term_lower " in " then Bucket.locationQueries
  else if anyContains term_lower
       ["buy", "purchase", "pricing", "cost", "service", "company", "provider",
        "vendor", "subscription", "plan"] then Bucket.commercialIntent
  else if anyContains term_lower
       ["business intelligence", "bi tool", "bi platform", "intelligence platform",
        "bi software"] then Bucket.coreBI
  else if anyContains term_lower
       ["data analytics", "analytics platform", "data visualization", "dashboard",
        "reporting", "analytics software"] then Bucket.dataAnalytics
  else if 4 ≤ word_count
     ∨ (search_volume < 1000 ∧ keyword.metrics.competition_level = CompetitionLevel.low) then
    Bucket.longTail
  else if anyContains term_lower
       ["reputation", "birdeye", "podium", "vs", "compare", "alternative", "competitor"] then
    Bucket.competitiveAnalysis
  else if 2000 < search_volume then Bucket.coreBI
  else Bucket.dataAnalytics

/-- The keyword-distribution loop of `_create_enhanced_rule_based_groups`:
a fold over the keywords that appends each keyword to the list of its
bucket (the Python per-bucket `keywords` lists, keyed by bucket). -/
def assign_buckets (keywords : List Keyword) : Bucket → List Keyword :=
  keywords.foldl
    (fun acc kw => fun b => if b = classify_keyword kw then acc b ++ [kw] else acc b)
    (fun _ => [])

/-! ## CPC range aggregation (src/processors/huggingface_processor.py) -/

/-- Python `round(x, 2)` modelled on exact rationals: round to the nearest
hundredth. (CPython rounds the nearest double with half-even ties; on exact
rationals the two agree except at exact half-cent ties, which affects none
of the order and sign properties proved here.) -/
def round2 (x : ℚ) : ℚ :=
  ((round (x * 100) : ℤ) : ℚ) / 100

/-- Embedding of `_calculate_group_cpc_range`: fixed default range for an
empty or zero-volume group, otherwise the volume-weighted mean of the
per-keyword bid bounds, rounded to two decimals. -/
def calculate_group_cpc_range (keywords : List Keyword) : ℚ × ℚ :=
  if keywords = [] then (0.5, 2.0)
  else
    let total_volume : ℕ :=
      (keywords.map (fun kw => kw.metrics.average_monthly_searches)).sum
    if total_volume = 0 then (0.5, 2.0)
    else
      let weighted_low :=
        (keywords.map (fun kw =>
          kw.metrics.top_of_page_bid_low * (kw.metrics.average_monthly_searches : ℚ))).sum
          / (total_volume : ℚ)
      let weighted_high :=
        (keywords.map (fun kw =>
          kw.metrics.top_of_page_bid_high * (kw.metrics.average_monthly_searches : ℚ))).sum
          / (total_volume : ℚ)
      (round2 weighted_low, round2 weighted_high)

/-- Embedding of `_create_enhanced_rule_based_groups`: distribute keywords
over the buckets, emit the non-empty buckets in dictionary insertion order,
cap the group list at `max_groups`. -/
def create_enhanced_rule_based_groups (keywords : List Keyword) (max_groups : ℕ) :
    List AdGroup :=
  let assigned := assign_buckets keywords
  let ad_groups := bucket_order.filterMap (fun b =>
    let ks := assigned b
    if ks = [] then none
    else some
      { name := bucket_name b
        intent_category := bucket_intent b
        keywords := ks
        suggested_cpc_range := calculate_group_cpc_range ks
        theme_description := bucket_description b })
  ad_groups.take max_groups

/-! ## Consolidation and filtering (main.py, `_consolidate_and_filter_keywords`) -/

/-- Normalized dedup key of a raw record: `kw.get('keyword', '').lower().strip()`. -/
def normalized_key (kw : RawKeywordData) : String :=
  stripStr (lowerStr (kw.keyword.getD ""))

/-- Whether a record is tagged as real WordStream data. -/
def is_real_data (kw : RawKeywordData) : Bool :=
  kw.data_source = some "wordstream_real"

/-- Whether a record is tagged as estimated data. -/
def is_estimated_data (kw : RawKeywordData) : Bool :=
  kw.data_source = some "estimated"

/-- Whether a record carries no `data_source` key at all. -/
def is_untagged_data (kw : RawKeywordData) : Bool :=
  kw.data_source = none

/-- The dedup loops of `_consolidate_and_filter_keywords`: keep the first
record per nonempty normalized key, where `seen` is the set of keys already
taken. -/
def dedup_by_key (seen : List String) : List RawKeywordData → List RawKeywordData
  | [] => []
  | kw :: rest =>
    let key := normalized_key kw
    if key ≠ "" ∧ key ∉ seen then kw :: dedup_by_key (key :: seen) rest
    else dedup_by_key seen rest

/-- The volume-threshold filter of `_consolidate_and_filter_keywords`:
real data needs volume ≥ 100, untagged data ≥ 1000, estimated data ≥ 5000. -/
def volume_filter_keep (kw : RawKeywordData) : Bool :=
  let search_vol := kw.search_volume.getD 0
  if is_real_data kw then 100 ≤ search_vol
  else if is_untagged_data kw then 1000 ≤ search_vol
  else if is_estimated_data kw then 5000 ≤ search_vol
  else false

/-- Embedding of `_consolidate_and_filter_keywords`: partition by data
source (real first, untagged second, estimated last), dedup by normalized
keyword, apply the per-source volume thresholds. The final statistics print
divides by `len(filtered_keywords)` and raises `ZeroDivisionError` when the
filtered list is empty, so that case is `none`. -/
def consolidate_and_filter_keywords (raw_keywords : List RawKeywordData) :
    Option (List RawKeywordData) :=
  let real_keywords := raw_keywords.filter is_real_data
  let estimated_keywords := raw_keywords.filter is_estimated_data
  let other_keywords := raw_keywords.filter is_untagged_data
  let unique_keywords := dedup_by_key [] (real_keywords ++ other_keywords ++ estimated_keywords)
  let filtered_keywords := unique_keywords.filter volume_filter_keep
  if filtered_keywords = [] then none else some filtered_keywords

/-! ## Metric estimation (src/collectors/keyword_researcher.py) -/

/-- Model of Python `random.randint(lo, hi)` as a deterministic function of
the generator state: the raw draw is reduced into `[lo, hi]`. The actual
generator is seeded from OS entropy, so the draw differs between runs. -/
def randint (lo hi draw : ℕ) : ℕ :=
  lo + draw % (hi + 1 - lo)

/-- Embedding of `_create_keyword_data_with_estimates`, with the state of the
module-level `random` generator made explicit as `draw`. Everything except
`search_volume` is a deterministic function of the keyword text. -/
def create_keyword_data_with_estimates (draw : ℕ) (keyword : String) :
    RawKeywordData :=
  let word_count := wordCount keyword
  let keyword_lower := lowerStr keyword
  let search_volume :=
    if word_count ≤ 2 then
      if anyContains keyword_lower ["ai", "software", "platform", "tool"] then
        randint 2000 8000 draw
      else randint 1000 5000 draw
    else if word_count = 3 then randint 500 3000 draw
    else randint 200 1500 draw
  let est : String × ℚ × ℚ :=
    if anyContains keyword_lower ["buy", "purchase", "service", "company", "provider"] then
      ("high", 1.50, 4.00)
    else if anyContains keyword_lower ["software", "platform", "solution", "tool"] then
      ("medium", 0.75, 2.50)
    else ("low", 0.25, 1.50)
  { keyword := some (stripStr keyword)
    search_volume := some search_volume
    competition := some est.1
    cpc_low := some (round2 est.2.1)
    cpc_high := some (round2 est.2.2)
    data_source := none }

/-! ## Outcome characterization of the greedy allocator -/

/-- The possible shapes of the allocator's output: the input unchanged
(budget not binding), a prefix of the prioritized list (whole groups
accepted greedily, allocation stopped), or such a prefix followed by a
single truncated copy of the next prioritized group - in which case the
copy keeps the original's intent category, CPC range and theme description,
its name is the original's with the optimization suffix, its keywords are
the top `n` of the original by descending relevance, and no further group
appears after it. -/
def GreedyOutcome (gs out : List AdGroup) : Prop :=
  out = gs
  ∨ (∃ k, out = (prioritize_ad_groups gs).take k)
  ∨ (∃ k ag n, (prioritize_ad_groups gs)[k]? = some ag ∧ 0 < n ∧
      out = (prioritize_ad_groups gs).take k ++ [truncated_ad_group ag n])

/-! ## Concrete sample data used by the witness theorems -/

/-- Sample keyword with high relevance score. -/
def kwHigh : Keyword :=
  { term := "bi software"
    metrics :=
      { average_monthly_searches := 1000
        top_of_page_bid_low := 1
        top_of_page_bid_high := 2
        competition_level := CompetitionLevel.medium }
    suggested_match_type := MatchType.phrase
    relevance_score := 9/10
    ad_group_assignment := none }

/-- Sample keyword with low relevance score. -/
def kwLow : Keyword :=
  { term := "dashboard tool"
    metrics :=
      { average_monthly_searches := 500
        top_of_page_bid_low := 1
        top_of_page_bid_high := 2
        competition_level := CompetitionLevel.low }
    suggested_match_type := MatchType.broad
    relevance_score := 1/10
    ad_group_assignment := none }

/-- Sample ad group with two keywords and an estimated spend of 60. -/
def gTwoKw : AdGroup :=
  { name := "Commercial Intent High-Value"
    intent_category := "Commercial Intent"
    keywords := [kwHigh, kwLow]
    suggested_cpc_range := (1/2, 3/2)
    theme_description := "Keywords showing strong buying intent and commercial value" }

/-- Sample ad group with no keywords (estimated spend 0). -/
def gEmptyKw : AdGroup :=
  { name := "Brand Terms"
    intent_category := "Brand Terms"
    keywords := []
    suggested_cpc_range := (1/2, 2)
    theme_description := "Brand name variations and company-specific terms" }

/-- A qualified raw record built from stop-word fragments: it passes the
volume threshold but scores below the relevance cut. -/
def rStopWord : RawKeywordData :=
  { keyword := some "the"
    search_volume := some 500
    competition := some "medium"
    cpc_low := some 2
    cpc_high := some 2
    data_source := none }

/-- A raw record tagged as real WordStream data. -/
def rRealData : RawKeywordData :=
  { keyword := some "business intelligence"
    search_volume := some 5000
    competition := none
    cpc_low := none
    cpc_high := none
    data_source := some "wordstream_real" }

/-! ## Helper lemmas about the budget allocator -/

theorem total_estimated_spend_nil : total_estimated_spend [] = 0 := rfl

theorem total_estimated_spend_cons (ag : AdGroup) (gs : List AdGroup) :
    total_estimated_spend (ag :: gs) =
      estimated_group_spend ag + total_estimated_spend gs := by
  simp [total_estimated_spend]

theorem truncated_keywords_length (ag : AdGroup) (n : ℕ) :
    (truncated_ad_group ag n).keywords.length = min n ag.keywords.length := by
  simp [truncated_ad_group, sort_keywords_by_relevance, List.length_take,
    List.length_insertionSort]

theorem estimated_group_spend_eq (ag : AdGroup) :
    estimated_group_spend ag = avg_group_cpc ag * 30 * (ag.keywords.length : ℚ) := by
  simp [estimated_group_spend]; ring

/-- In the overflow branch the divisor `avg_group_cpc * 30` is positive:
were it nonpositive, the group's spend would be nonpositive and could not
exceed the nonnegative remaining budget. -/
theorem divisor_pos_of_overflow (ag : AdGroup) (r : ℚ) (h0 : 0 ≤ r)
    (h : r < estimated_group_spend ag) : 0 < avg_group_cpc ag * 30 := by
  by_contra hle
  push_neg at hle
  have hlen : (0 : ℚ) ≤ (ag.keywords.length : ℚ) := by positivity
  have : estimated_group_spend ag ≤ 0 := by
    rw [estimated_group_spend_eq]
    exact mul_nonpos_of_nonpos_of_nonneg hle hlen
  linarith

/-- Spend of the truncated group built from remaining budget `r`:
at most `r` keywords-worth of spend fit by construction of the floor. -/
theorem truncated_spend_le (ag : AdGroup) (r : ℚ)
    (hdpos : 0 < avg_group_cpc ag * 30) (hr : 0 ≤ r) :
    estimated_group_spend
      (truncated_ad_group ag (pyInt (r / (avg_group_cpc ag * 30))).toNat) ≤ r := by
  have hq0 : 0 ≤ r / (avg_group_cpc ag * 30) := div_nonneg hr (le_of_lt hdpos)
  have hpy : pyInt (r / (avg_group_cpc ag * 30)) = ⌊r / (avg_group_cpc ag * 30)⌋ :=
    if_pos hq0
  have hfl0 : (0 : ℤ) ≤ ⌊r / (avg_group_cpc ag * 30)⌋ := Int.floor_nonneg.mpr hq0
  have hcast : (((pyInt (r / (avg_group_cpc ag * 30))).toNat : ℕ) : ℚ)
      ≤ r / (avg_group_cpc ag * 30) := by
    rw [hpy]
    calc ((⌊r / (avg_group_cpc ag * 30)⌋.toNat : ℕ) : ℚ)
        = ((⌊r / (avg_group_cpc ag * 30)⌋ : ℤ) : ℚ) := by
          exact_mod_cast congrArg (fun z : ℤ => (z : ℚ)) (Int.toNat_of_nonneg hfl0)
      _ ≤ r / (avg_group_cpc ag * 30) := Int.floor_le _
  have havg : avg_group_cpc
      (truncated_ad_group ag (pyInt (r / (avg_group_cpc ag * 30))).toNat)
      = avg_group_cpc ag := by
    simp [truncated_ad_group, avg_group_cpc]
  rw [estimated_group_spend_eq, havg, truncated_keywords_length]
  have hminle : (((min (pyInt (r / (avg_group_cpc ag * 30))).toNat
      ag.keywords.length : ℕ) : ℚ)) ≤ r / (avg_group_cpc ag * 30) := by
    refine le_trans ?_ hcast
    exact_mod_cast Nat.cast_le.mpr (min_le_left _ _)
  have hstep : avg_group_cpc ag * 30 *
      (((min (pyInt (r / (avg_group_cpc ag * 30))).toNat ag.keywords.length : ℕ) : ℚ))
      ≤ avg_group_cpc ag * 30 * (r / (avg_group_cpc ag * 30)) :=
    mul_le_mul_of_nonneg_left hminle (le_of_lt hdpos)
  have hcancel : avg_group_cpc ag * 30 * (r / (avg_group_cpc ag * 30)) = r := by
    field_simp
  linarith

theorem greedy_select_spend_le (budget : ℚ) :
    ∀ (pgs : List AdGroup) (running : ℚ) (out : List AdGroup),
      running ≤ budget → greedy_select budget running pgs = some out →
      running + total_estimated_spend out ≤ budget := by
  intro pgs
  induction pgs with
  | nil =>
    intro running out hrun h
    simp only [greedy_select, Option.some.injEq] at h
    subst h
    simpa [total_estimated_spend_nil] using hrun
  | cons ag rest ih =>
    intro running out hrun h
    simp only [greedy_select] at h
    by_cases hfit : running + estimated_group_spend ag ≤ budget
    · rw [if_pos hfit] at h
      rcases Option.map_eq_some'.mp h with ⟨out2, hout2, rfl⟩
      have := ih (running + estimated_group_spend ag) out2 hfit hout2
      rw [total_estimated_spend_cons]
      linarith
    · rw [if_neg hfit] at h
      push_neg at hfit
      have hdpos : 0 < avg_group_cpc ag * 30 :=
        divisor_pos_of_overflow ag (budget - running) (by linarith) (by linarith)
      rw [if_neg (ne_of_gt hdpos)] at h
      by_cases hpos : 0 < pyInt ((budget - running) / (avg_group_cpc ag * 30))
      · rw [if_pos hpos, Option.some.injEq] at h
        subst h
        rw [total_estimated_spend_cons, total_estimated_spend_nil, add_zero]
        have := truncated_spend_le ag (budget - running) hdpos (by linarith)
        linarith
      · rw [if_neg hpos, Option.some.injEq] at h
        subst h
        simpa [total_estimated_spend_nil] using hrun

theorem greedy_select_isSome (budget : ℚ) :
    ∀ (pgs : List AdGroup) (running : ℚ), running ≤ budget →
      (greedy_select budget running pgs).isSome := by
  intro pgs
  induction pgs with
  | nil => intro running _; simp [greedy_select]
  | cons ag rest ih =>
    intro running hrun
    simp only [greedy_select]
    by_cases hfit : running + estimated_group_spend ag ≤ budget
    · rw [if_pos hfit]
      simpa using ih (running + estimated_group_spend ag) hfit
    · rw [if_neg hfit]
      push_neg at hfit
      have hdpos : 0 < avg_group_cpc ag * 30 :=
        divisor_pos_of_overflow ag (budget - running) (by linarith) (by linarith)
      rw [if_neg (ne_of_gt hdpos)]
      by_cases hpos : 0 < pyInt ((budget - running) / (avg_group_cpc ag * 30))
      · rw [if_pos hpos]; simp
      · rw [if_neg hpos]; simp

/-- Totality of the allocator on nonnegative budgets; shared by several
claims below. -/
theorem optimize_isSome_of_nonneg (budget : ℚ) (ad_groups : List AdGroup)
    (hb : 0 ≤ budget) : (optimize_ad_groups_for_budget budget ad_groups).isSome := by
  rw [optimize_ad_groups_for_budget]
  by_cases hnil : ad_groups = []
  · rw [if_pos hnil]; simp
  · rw [if_neg hnil]
    by_cases hle : total_estimated_spend ad_groups ≤ budget
    · rw [if_pos hle]; simp
    · rw [if_neg hle]
      exact greedy_select_isSome budget (prioritize_ad_groups ad_groups) 0 hb

theorem pyInt_nonpos {q : ℚ} (h : q ≤ 0) : pyInt q ≤ 0 := by
  rw [pyInt]
  by_cases h0 : 0 ≤ q
  · rw [if_pos h0]
    have : q = 0 := le_antisymm h h0
    simp [this]
  · rw [if_neg h0]
    exact Int.ceil_le.mpr (by exact_mod_cast h)

theorem mem_prioritize {ag : AdGroup} {gs : List AdGroup}
    (h : ag ∈ prioritize_ad_groups gs) : ag ∈ gs := by
  simp only [prioritize_ad_groups] at h
  rcases List.mem_map.mp h with ⟨p, hp, rfl⟩
  have hp2 : p ∈ gs.map (fun g => (g, calculate_ad_group_roas_score g)) :=
    (List.mem_insertionSort _).mp hp
  rcases List.mem_map.mp hp2 with ⟨g, hg, rfl⟩
  exact hg

theorem prioritize_length (gs : List AdGroup) :
    (prioritize_ad_groups gs).length = gs.length := by
  simp [prioritize_ad_groups, List.length_insertionSort]

/-- C1: for every list of ad groups and every non-negative total budget, the
groups returned by the budget allocator (including a possibly truncated
final group) have a total naive estimated monthly spend, sum over groups of
`avg(suggested_cpc_range) * keyword count * 30`, that does not exceed the
supplied budget. -/
theorem budget_allocator_never_exceeds_budget (budget : ℚ)
    (ad_groups out : List AdGroup) (hb : 0 ≤ budget)
    (h : optimize_ad_groups_for_budget budget ad_groups = some out) :
    total_estimated_spend out ≤ budget := by
  rw [optimize_ad_groups_for_budget] at h
  by_cases hnil : ad_groups = []
  · rw [if_pos hnil] at h
    cases h
    subst hnil
    simpa [total_estimated_spend_nil] using hb
  · rw [if_neg hnil] at h
    by_cases hle : total_estimated_spend ad_groups ≤ budget
    · rw [if_pos hle] at h
      cases h
      exact hle
    · rw [if_neg hle] at h
      have := greedy_select_spend_le budget (prioritize_ad_groups ad_groups) 0 out hb h
      linarith

/-- Witness for C1 at a concrete input that forces truncation: one group
with estimated spend 60 against budget 40. -/
theorem budget_allocator_never_exceeds_budget_witness :
    total_estimated_spend ((optimize_ad_groups_for_budget 40 [gTwoKw]).getD []) ≤ 40 := by
  refine budget_allocator_never_exceeds_budget 40 [gTwoKw] _ (by norm_num) ?_
  have hs := optimize_isSome_of_nonneg 40 [gTwoKw] (by norm_num)
  rcases Option.isSome_iff_exists.mp hs with ⟨x, hx⟩
  rw [hx]
  simp [Option.getD]

/-- C10: for every list of ad groups and every non-negative budget the
allocator is total, that is, the division by `avg_group_cpc * 30` in the
truncation branch is never executed with a zero divisor (a group with zero
average CPC has zero estimated spend and is accepted whole instead). -/
theorem budget_allocator_total_on_nonneg_budget (budget : ℚ)
    (ad_groups : List AdGroup) (hb : 0 ≤ budget) :
    (optimize_ad_groups_for_budget budget ad_groups).isSome :=
  optimize_isSome_of_nonneg budget ad_groups hb

/-- Witness for C10 at a concrete input. -/
theorem budget_allocator_total_on_nonneg_budget_witness :
    (optimize_ad_groups_for_budget 40 [gTwoKw]).isSome :=
  budget_allocator_total_on_nonneg_budget 40 [gTwoKw] (by norm_num)

/-- C2 counterexample: with budget 0 and a single ad group whose estimated
spend is 0 (here: no keywords), the total estimated spend `0 ≤ 0` is within
budget, so the generator returns the group list unchanged and the campaign
has a non-empty `ad_groups` - contradicting the claim that a zero budget
always yields an empty campaign. -/
theorem zero_budget_campaign_counterexample :
    Option.map SearchCampaign.ad_groups (create_search_campaign 0 (2/100) [gEmptyKw])
      = some [gEmptyKw] ∧ [gEmptyKw] ≠ ([] : List AdGroup) := by
  constructor
  · have hspend : total_estimated_spend [gEmptyKw] = 0 := by
      simp [total_estimated_spend, estimated_group_spend, gEmptyKw]
    simp [create_search_campaign, optimize_ad_groups_for_budget, hspend]
  · simp

/-- C2 amended: if the total budget is zero or negative and every supplied ad
group has a positive naive estimated spend (as all pipeline-produced groups
do: a non-empty keyword list and a positive average CPC), the generated
campaign has an empty `ad_groups` list and no error is raised. A group with
zero estimated spend is instead returned unchanged when the budget is 0, and
with a zero average CPC and a negative budget the source raises
`ZeroDivisionError`, so the positivity hypothesis is necessary. -/
theorem zero_or_negative_budget_empty_campaign (budget tcr : ℚ)
    (gs : List AdGroup) (hb : budget ≤ 0)
    (hpos : ∀ g ∈ gs, 0 < estimated_group_spend g) :
    Option.map SearchCampaign.ad_groups (create_search_campaign budget tcr gs)
      = some [] := by
  rw [create_search_campaign]
  by_cases hnil : gs = []
  · subst hnil
    rw [optimize_ad_groups_for_budget, if_pos rfl]
    rfl
  · have htot : 0 < total_estimated_spend gs := by
      rw [total_estimated_spend]
      apply List.sum_pos
      · intro x hx
        rcases List.mem_map.mp hx with ⟨g, hg, rfl⟩
        exact hpos g hg
      · simp [hnil]
    obtain ⟨p, ps, hp⟩ : ∃ p ps, prioritize_ad_groups gs = p :: ps := by
      cases hpri : prioritize_ad_groups gs with
      | nil =>
        exfalso
        have := prioritize_length gs
        rw [hpri] at this
        exact hnil (List.length_eq_zero.mp this.symm)
      | cons p ps => exact ⟨p, ps, rfl⟩
    rw [optimize_ad_groups_for_budget, if_neg hnil, if_neg (by linarith), hp]
    have hmem : p ∈ gs := mem_prioritize (by rw [hp]; exact List.mem_cons_self _ _)
    have hsp : 0 < estimated_group_spend p := hpos p hmem
    have hnf : ¬(0 + estimated_group_spend p ≤ budget) := by linarith
    have hdpos : 0 < avg_group_cpc p * 30 :=
      divisor_pos_of_overflow p 0 le_rfl hsp
    have hq : (budget - 0) / (avg_group_cpc p * 30) ≤ 0 := by
      apply div_nonpos_of_nonpos_of_nonneg (by linarith) (le_of_lt hdpos)
    have hpyle : ¬(0 < pyInt ((budget - 0) / (avg_group_cpc p * 30))) :=
      not_lt.mpr (pyInt_nonpos hq)
    simp only [greedy_select]
    rw [if_neg hnf, if_neg (ne_of_gt hdpos), if_neg hpyle]
    rfl

/-- Witness for the amended C2 at a concrete input. -/
theorem zero_or_negative_budget_empty_campaign_witness :
    Option.map SearchCampaign.ad_groups (create_search_campaign (-1) (2/100) [gTwoKw])
      = some [] := by
  refine zero_or_negative_budget_empty_campaign (-1) (2/100) [gTwoKw] (by norm_num) ?_
  intro g hg
  have hg2 : g = gTwoKw := by simpa using hg
  subst hg2
  norm_num [estimated_group_spend, avg_group_cpc, gTwoKw]

/-- Shape of every successful result of the greedy loop: a prefix of the
list, or a prefix followed by one truncated group and nothing else. -/
theorem greedy_select_shape (budget : ℚ) :
    ∀ (pgs : List AdGroup) (running : ℚ) (out : List AdGroup),
      greedy_select budget running pgs = some out →
      (∃ k, out = pgs.take k) ∨
      (∃ k ag n, pgs[k]? = some ag ∧ 0 < n ∧
        out = pgs.take k ++ [truncated_ad_group ag n]) := by
  intro pgs
  induction pgs with
  | nil =>
    intro running out h
    simp only [greedy_select, Option.some.injEq] at h
    subst h
    exact Or.inl ⟨0, rfl⟩
  | cons ag rest ih =>
    intro running out h
    simp only [greedy_select] at h
    by_cases hfit : running + estimated_group_spend ag ≤ budget
    · rw [if_pos hfit] at h
      rcases Option.map_eq_some'.mp h with ⟨out2, hout2, rfl⟩
      rcases ih (running + estimated_group_spend ag) out2 hout2 with ⟨k, rfl⟩ | ⟨k, g, n, hk, hn, rfl⟩
      · exact Or.inl ⟨k + 1, by simp [List.take_succ_cons]⟩
      · refine Or.inr ⟨k + 1, g, n, ?_, hn, ?_⟩
        · simpa using hk
        · simp [List.take_succ_cons]
    · rw [if_neg hfit] at h
      by_cases hdiv : avg_group_cpc ag * 30 = 0
      · rw [if_pos hdiv] at h
        exact absurd h (by simp)
      · rw [if_neg hdiv] at h
        by_cases hpos : 0 < pyInt ((budget - running) / (avg_group_cpc ag * 30))
        · rw [if_pos hpos, Option.some.injEq] at h
          subst h
          refine Or.inr
            ⟨0, ag, (pyInt ((budget - running) / (avg_group_cpc ag * 30))).toNat,
              ?_, ?_, ?_⟩
          · simp
          · omega
          · simp
        · rw [if_neg hpos, Option.some.injEq] at h
          subst h
          exact Or.inl ⟨0, rfl⟩

/-- C8: whenever the allocator succeeds, its output is the input unchanged,
a prefix of the prioritized groups, or a prefix plus a single truncated
copy of the first overflowing group - the copy differing from the original
only in its name (optimization suffix) and its keyword list (top `n` by
descending relevance), with intent category, CPC range (not recomputed) and
theme description unchanged, and no group after it. -/
theorem budget_truncation_frame_effect (budget : ℚ) (gs out : List AdGroup)
    (h : optimize_ad_groups_for_budget budget gs = some out) :
    GreedyOutcome gs out := by
  rw [optimize_ad_groups_for_budget] at h
  by_cases hnil : gs = []
  · rw [if_pos hnil] at h
    cases h
    exact Or.inl rfl
  · rw [if_neg hnil] at h
    by_cases hle : total_estimated_spend gs ≤ budget
    · rw [if_pos hle] at h
      cases h
      exact Or.inl rfl
    · rw [if_neg hle] at h
      rcases greedy_select_shape budget (prioritize_ad_groups gs) 0 out h with h1 | h2
      · exact Or.inr (Or.inl h1)
      · exact Or.inr (Or.inr h2)

/-- Witness for C8 at a concrete input that actually truncates: one group
with spend 60 against budget 40. -/
theorem budget_truncation_frame_effect_witness :
    GreedyOutcome [gTwoKw] ((optimize_ad_groups_for_budget 40 [gTwoKw]).getD []) := by
  refine budget_truncation_frame_effect 40 [gTwoKw] _ ?_
  have hs := optimize_isSome_of_nonneg 40 [gTwoKw] (by norm_num)
  rcases Option.isSome_iff_exists.mp hs with ⟨x, hx⟩
  rw [hx]
  simp [Option.getD]

/-! ## Relevance scorer lemmas -/

theorem foldl_max_bounds {α : Type} [LinearOrder α] :
    ∀ (ys : List α) (a : α),
      a ≤ ys.foldl max a ∧ ∀ x ∈ ys, x ≤ ys.foldl max a := by
  intro ys
  induction ys with
  | nil => intro a; exact ⟨le_rfl, by simp⟩
  | cons z zs ih =>
    intro a
    have h := ih (max a z)
    refine ⟨le_trans (le_max_left a z) h.1, ?_⟩
    intro x hx
    rcases List.mem_cons.mp hx with rfl | hx
    · exact le_trans (le_max_right a x) h.1
    · exact h.2 x hx

theorem le_pyMaxNat {l : List ℕ} {x : ℕ} (hx : x ∈ l) : x ≤ pyMaxNat l := by
  cases l with
  | nil => cases hx
  | cons y ys =>
    rcases List.mem_cons.mp hx with rfl | hx
    · exact (foldl_max_bounds ys x).1
    · exact (foldl_max_bounds ys y).2 x hx

theorem le_pyMaxRat {l : List ℚ} {x : ℚ} (hx : x ∈ l) : x ≤ pyMaxRat l := by
  cases l with
  | nil => cases hx
  | cons y ys =>
    rcases List.mem_cons.mp hx with rfl | hx
    · exact (foldl_max_bounds ys x).1
    · exact (foldl_max_bounds ys y).2 x hx

theorem relevance_bonus_lower (s : String) : -0.1 ≤ relevance_bonus s := by
  rw [relevance_bonus]
  split_ifs <;> norm_num

theorem relevance_bonus_score_term (mv : ℕ) (mc : ℚ) (kw : Keyword) :
    (score_keyword mv mc kw).term = kw.term := by
  simp [score_keyword]

theorem comp_score_lower (c : CompetitionLevel) : 0.1 ≤ comp_score c := by
  cases c <;> norm_num [comp_score]

/-- C5: in every non-empty batch where volumes are non-negative (they are
naturals) with at least one positive, at least one bid_high is positive,
and each keyword has bid_low ≤ bid_high, every score assigned by the
relevance scorer lies in [0, 1]. -/
theorem relevance_scores_in_unit_interval (kws : List Keyword)
    (hne : kws ≠ [])
    (hvol : ∃ k ∈ kws, 0 < k.metrics.average_monthly_searches)
    (hbid : ∃ k ∈ kws, 0 < k.metrics.top_of_page_bid_high)
    (hlehi : ∀ k ∈ kws, k.metrics.top_of_page_bid_low ≤ k.metrics.top_of_page_bid_high) :
    ∀ k ∈ calculate_relevance_scores kws,
      0 ≤ k.relevance_score ∧ k.relevance_score ≤ 1 := by
  intro k hk
  cases kws with
  | nil => exact absurd rfl hne
  | cons a as =>
    simp only [calculate_relevance_scores] at hk
    rcases List.mem_map.mp hk with ⟨k0, hk0, rfl⟩
    set mv := pyMaxNat ((a :: as).map (fun kw => kw.metrics.average_monthly_searches)) with hmv
    set mc := pyMaxRat ((a :: as).map (fun kw => kw.metrics.top_of_page_bid_high)) with hmc
    have hmvpos : 0 < mv := by
      rcases hvol with ⟨kv, hkv, hkvpos⟩
      have : kv.metrics.average_monthly_searches ≤ mv :=
        le_pyMaxNat (List.mem_map_of_mem (fun kw => kw.metrics.average_monthly_searches) hkv)
      omega
    have hmcpos : 0 < mc := by
      rcases hbid with ⟨kb, hkb, hkbpos⟩
      have : kb.metrics.top_of_page_bid_high ≤ mc :=
        le_pyMaxRat (List.mem_map_of_mem (fun kw => kw.metrics.top_of_page_bid_high) hkb)
      linarith
    simp only [score_keyword]
    constructor
    · apply le_min
      · norm_num
      · have hvs : (0 : ℚ) ≤
            ((k0.metrics.average_monthly_searches : ℚ) / (mv : ℚ)) * 0.3 := by
          positivity
        have hcs := comp_score_lower k0.metrics.competition_level
        have hce : (0 : ℚ) ≤
            max 0 ((mc - (k0.metrics.top_of_page_bid_low + k0.metrics.top_of_page_bid_high) / 2) / mc) * 0.2 := by
          positivity
        have hrb := relevance_bonus_lower (lowerStr k0.term)
        linarith
    · exact min_le_left _ _

/-- Witness for C5 at a concrete one-keyword batch. -/
theorem relevance_scores_in_unit_interval_witness :
    0 ≤ (calculate_relevance_scores [kwHigh]).head!.relevance_score ∧
    (calculate_relevance_scores [kwHigh]).head!.relevance_score ≤ 1 := by
  have hne : calculate_relevance_scores [kwHigh] ≠ [] := by
    simp [calculate_relevance_scores]
  refine relevance_scores_in_unit_interval [kwHigh] (by simp)
    ⟨kwHigh, by simp, by norm_num [kwHigh]⟩
    ⟨kwHigh, by simp, by norm_num [kwHigh]⟩
    ?_ _ (List.head!_mem_self hne)
  intro k hk
  have hk2 : k = kwHigh := by simpa using hk
  subst hk2
  norm_num [kwHigh]

/-- C3 amended: the scoring function itself is 1:1 - it returns exactly one
scored keyword per input record, in order, with the terms unchanged; the
surrounding `process_raw_keywords` stage is not 1:1 (see the
counterexample), since it also filters on volume, drops scores below 0.4
and caps the result at 200. The hypothesis excludes the degenerate batches
(zero maximum volume or zero maximum bid) on which the source raises
`ZeroDivisionError` instead of returning a list. -/
theorem relevance_scorer_one_to_one (kws : List Keyword)
    (_hsafe : kws = [] ∨
      ((∃ k ∈ kws, 0 < k.metrics.average_monthly_searches) ∧
       (∃ k ∈ kws, 0 < k.metrics.top_of_page_bid_high))) :
    (calculate_relevance_scores kws).length = kws.length ∧
    (calculate_relevance_scores kws).map Keyword.term = kws.map Keyword.term := by
  cases kws with
  | nil => simp [calculate_relevance_scores]
  | cons a as =>
    constructor
    · simp [calculate_relevance_scores]
    · simp only [calculate_relevance_scores, List.map_map]
      apply List.map_congr_left
      intro k _
      exact relevance_bonus_score_term _ _ k

/-- Witness for the amended C3 at a concrete one-keyword batch. -/
theorem relevance_scorer_one_to_one_witness :
    (calculate_relevance_scores [kwHigh]).length = [kwHigh].length ∧
    (calculate_relevance_scores [kwHigh]).map Keyword.term =
      [kwHigh].map Keyword.term :=
  relevance_scorer_one_to_one [kwHigh]
    (Or.inr ⟨⟨kwHigh, by simp, by norm_num [kwHigh]⟩,
      ⟨kwHigh, by simp, by norm_num [kwHigh]⟩⟩)

/-- C7: the metric-estimation code is not a deterministic function of the
keyword - two states of the unseeded random generator give different
estimated volumes for the same keyword, so two runs of the pipeline can
differ, contradicting the determinism requirement. -/
theorem estimation_depends_on_rng_state :
    create_keyword_data_with_estimates 0 "data analytics" ≠
      create_keyword_data_with_estimates 1 "data analytics" := by
  decide

/-- C3 counterexample: the qualified record with term "the" (volume 500,
meeting the 500 threshold) scores 0.35 < 0.4 and is dropped by
`process_raw_keywords`, so one input record yields zero output keywords:
the processing stage is not 1:1. -/
theorem scorer_stage_not_one_to_one_counterexample :
    process_raw_keywords [rStopWord] 500 = [] := by
  have hbonus : relevance_bonus (lowerStr (stripStr "the")) = -0.1 := by
    rw [relevance_bonus]
    rw [if_neg (by decide), if_neg (by decide), if_neg (by decide),
      if_neg (by decide), if_neg (by decide), if_pos (by decide)]
    norm_num
  have hcap : ∀ (l : List Keyword), l = [] →
      (if 200 < l.length then l.take 200 else l) = [] := by
    intro l hl
    subst hl
    simp
  have hsingle : ∀ (c : ℚ) (y : Keyword), ¬(c ≤ y.relevance_score) →
      List.filter (fun kw => decide (c ≤ kw.relevance_score))
        (sort_keywords_by_relevance [y]) = [] := by
    intro c y hy
    have hs : sort_keywords_by_relevance [y] = [y] := by
      simp [sort_keywords_by_relevance, List.insertionSort]
    rw [hs, List.filter_cons]
    rw [if_neg (by simpa using hy)]
    rfl
  rw [process_raw_keywords]
  simp only [rStopWord, List.filterMap_cons, List.filterMap_nil, Option.getD_some]
  norm_num only
  apply hcap
  simp only [calculate_relevance_scores, List.map_cons, List.map_nil,
    pyMaxNat, pyMaxRat, List.foldl_nil]
  apply hsingle
  have hcomp : parse_competition "medium" = CompetitionLevel.medium := by decide
  simp only [score_keyword, hcomp, hbonus, comp_score]
  norm_num

/-! ## CPC range lemmas -/

theorem round2_nonneg {x : ℚ} (hx : 0 ≤ x) : 0 ≤ round2 x := by
  rw [round2]
  have h0 : (0 : ℤ) ≤ round (x * 100) := by
    rw [round_eq]
    exact Int.floor_nonneg.mpr (by linarith)
  have h1 : (0 : ℚ) ≤ ((round (x * 100) : ℤ) : ℚ) := by exact_mod_cast h0
  linarith

theorem round2_mono {x y : ℚ} (hxy : x ≤ y) : round2 x ≤ round2 y := by
  rw [round2, round2]
  have h0 : round (x * 100) ≤ round (y * 100) := by
    rw [round_eq, round_eq]
    exact Int.floor_mono (by linarith)
  have h1 : ((round (x * 100) : ℤ) : ℚ) ≤ ((round (y * 100) : ℤ) : ℚ) := by
    exact_mod_cast h0
  linarith

theorem calculate_group_cpc_range_valid (kws : List Keyword)
    (h : ∀ k ∈ kws, 0 ≤ k.metrics.top_of_page_bid_low ∧
      k.metrics.top_of_page_bid_low ≤ k.metrics.top_of_page_bid_high) :
    0 ≤ (calculate_group_cpc_range kws).1 ∧
      (calculate_group_cpc_range kws).1 ≤ (calculate_group_cpc_range kws).2 := by
  by_cases h1 : kws = []
  · simp only [calculate_group_cpc_range, if_pos h1]
    norm_num
  · by_cases h2 : (kws.map (fun kw => kw.metrics.average_monthly_searches)).sum = 0
    · simp only [calculate_group_cpc_range, if_neg h1, if_pos h2]
      norm_num
    · simp only [calculate_group_cpc_range, if_neg h1, if_neg h2]
      have htot : (0 : ℚ) <
          (((kws.map (fun kw => kw.metrics.average_monthly_searches)).sum : ℕ) : ℚ) := by
        exact_mod_cast Nat.pos_of_ne_zero h2
      have hlow0 : 0 ≤ (kws.map (fun kw =>
          kw.metrics.top_of_page_bid_low * (kw.metrics.average_monthly_searches : ℚ))).sum := by
        apply List.sum_nonneg
        intro a ha
        rcases List.mem_map.mp ha with ⟨k, hk, rfl⟩
        exact mul_nonneg (h k hk).1 (by positivity)
      have hlh : (kws.map (fun kw =>
          kw.metrics.top_of_page_bid_low * (kw.metrics.average_monthly_searches : ℚ))).sum ≤
          (kws.map (fun kw =>
          kw.metrics.top_of_page_bid_high * (kw.metrics.average_monthly_searches : ℚ))).sum := by
        apply List.sum_le_sum
        intro k hk
        exact mul_le_mul_of_nonneg_right (h k hk).2 (by positivity)
      constructor
      · exact round2_nonneg (div_nonneg hlow0 (le_of_lt htot))
      · exact round2_mono (by gcongr)

theorem assign_buckets_foldl (kws : List Keyword) :
    ∀ (acc : Bucket → List Keyword) (b : Bucket),
      (kws.foldl
        (fun acc kw => fun c => if c = classify_keyword kw then acc c ++ [kw] else acc c)
        acc) b
      = acc b ++ kws.filter (fun k => b == classify_keyword k) := by
  induction kws with
  | nil => intro acc b; simp
  | cons k ks ih =>
    intro acc b
    rw [List.foldl_cons, ih, List.filter_cons]
    by_cases hb : b = classify_keyword k
    · rw [if_pos hb, if_pos (by simpa using hb)]
      simp
    · rw [if_neg hb, if_neg (by simpa using hb)]

theorem assign_buckets_eq_filter (kws : List Keyword) (b : Bucket) :
    assign_buckets kws b = kws.filter (fun k => b == classify_keyword k) := by
  rw [assign_buckets, assign_buckets_foldl]
  simp

theorem mem_assign_buckets {kws : List Keyword} {b : Bucket} {k : Keyword}
    (h : k ∈ assign_buckets kws b) : k ∈ kws ∧ classify_keyword k = b := by
  rw [assign_buckets_eq_filter] at h
  refine ⟨List.mem_of_mem_filter h, ?_⟩
  have h2 : b = classify_keyword k := by simpa using List.of_mem_filter h
  exact h2.symm

theorem mem_rule_based_groups {kws : List Keyword} {mg : ℕ} {g : AdGroup}
    (h : g ∈ create_enhanced_rule_based_groups kws mg) :
    ∃ b : Bucket, assign_buckets kws b ≠ [] ∧
      g = { name := bucket_name b
            intent_category := bucket_intent b
            keywords := assign_buckets kws b
            suggested_cpc_range := calculate_group_cpc_range (assign_buckets kws b)
            theme_description := bucket_description b } := by
  rw [create_enhanced_rule_based_groups] at h
  have h2 := List.take_subset _ _ h
  rcases List.mem_filterMap.mp h2 with ⟨b, _, hb⟩
  by_cases hks : assign_buckets kws b = []
  · rw [if_pos hks] at hb
    cases hb
  · rw [if_neg hks] at hb
    exact ⟨b, hks, (Option.some.injEq _ _ ▸ hb).symm⟩

/-- C6: the CPC range computed for a group of keywords whose bids satisfy
`0 ≤ bid_low ≤ bid_high` (including the default range for empty or
zero-volume groups) satisfies `0 ≤ low ≤ high`; every group emitted by the
rule-based classifier carries such a range; and the budget allocator
preserves the property (truncation keeps the original range). -/
theorem all_cpc_ranges_valid :
    (∀ kws : List Keyword,
      (∀ k ∈ kws, 0 ≤ k.metrics.top_of_page_bid_low ∧
        k.metrics.top_of_page_bid_low ≤ k.metrics.top_of_page_bid_high) →
      0 ≤ (calculate_group_cpc_range kws).1 ∧
        (calculate_group_cpc_range kws).1 ≤ (calculate_group_cpc_range kws).2)
    ∧ (∀ (kws : List Keyword) (mg : ℕ),
      (∀ k ∈ kws, 0 ≤ k.metrics.top_of_page_bid_low ∧
        k.metrics.top_of_page_bid_low ≤ k.metrics.top_of_page_bid_high) →
      ∀ g ∈ create_enhanced_rule_based_groups kws mg,
        0 ≤ g.suggested_cpc_range.1 ∧
          g.suggested_cpc_range.1 ≤ g.suggested_cpc_range.2)
    ∧ (∀ (budget : ℚ) (gs out : List AdGroup),
      (∀ g ∈ gs, 0 ≤ g.suggested_cpc_range.1 ∧
        g.suggested_cpc_range.1 ≤ g.suggested_cpc_range.2) →
      optimize_ad_groups_for_budget budget gs = some out →
      ∀ g ∈ out, 0 ≤ g.suggested_cpc_range.1 ∧
        g.suggested_cpc_range.1 ≤ g.suggested_cpc_range.2) := by
  refine ⟨fun kws h => calculate_group_cpc_range_valid kws h, ?_, ?_⟩
  · intro kws mg h g hg
    rcases mem_rule_based_groups hg with ⟨b, _, rfl⟩
    exact calculate_group_cpc_range_valid _ (fun k hk =>
      h k (mem_assign_buckets hk).1)
  · intro budget gs out h hopt g hg
    rw [optimize_ad_groups_for_budget] at hopt
    by_cases hnil : gs = []
    · rw [if_pos hnil] at hopt
      cases hopt
      exact h g hg
    · rw [if_neg hnil] at hopt
      by_cases hle : total_estimated_spend gs ≤ budget
      · rw [if_pos hle] at hopt
        cases hopt
        exact h g hg
      · rw [if_neg hle] at hopt
        rcases greedy_select_shape budget (prioritize_ad_groups gs) 0 out hopt with
          ⟨k, rfl⟩ | ⟨k, ag, n, hk, _, rfl⟩
        · exact h g (mem_prioritize (List.take_subset _ _ hg))
        · rcases List.mem_append.mp hg with hg2 | hg2
          · exact h g (mem_prioritize (List.take_subset _ _ hg2))
          · have hag : ag ∈ gs := mem_prioritize (List.getElem?_mem hk)
            have hgr : g = truncated_ad_group ag n := by simpa using hg2
            subst hgr
            simpa [truncated_ad_group] using h ag hag

/-- Witness for C6 at concrete inputs: the default range, a rule-based group
over one keyword, and a budget-allocator output group. -/
theorem all_cpc_ranges_valid_witness :
    (0 ≤ (calculate_group_cpc_range []).1 ∧
      (calculate_group_cpc_range []).1 ≤ (calculate_group_cpc_range []).2)
    ∧ (0 ≤ (create_enhanced_rule_based_groups [kwHigh] 15).head!.suggested_cpc_range.1 ∧
      (create_enhanced_rule_based_groups [kwHigh] 15).head!.suggested_cpc_range.1 ≤
        (create_enhanced_rule_based_groups [kwHigh] 15).head!.suggested_cpc_range.2)
    ∧ (0 ≤ gTwoKw.suggested_cpc_range.1 ∧
      gTwoKw.suggested_cpc_range.1 ≤ gTwoKw.suggested_cpc_range.2) := by
  have hbids : ∀ k ∈ [kwHigh], 0 ≤ k.metrics.top_of_page_bid_low ∧
      k.metrics.top_of_page_bid_low ≤ k.metrics.top_of_page_bid_high := by
    intro k hk
    have hk2 : k = kwHigh := by simpa using hk
    subst hk2
    norm_num [kwHigh]
  refine ⟨all_cpc_ranges_valid.1 [] (by simp), ?_, ?_⟩
  · have hne : create_enhanced_rule_based_groups [kwHigh] 15 ≠ [] := by decide
    exact all_cpc_ranges_valid.2.1 [kwHigh] 15 hbids _ (List.head!_mem_self hne)
  · have hspend : total_estimated_spend [gTwoKw] = 60 := by
      norm_num [total_estimated_spend, estimated_group_spend, avg_group_cpc, gTwoKw]
    have hopt : optimize_ad_groups_for_budget 100 [gTwoKw] = some [gTwoKw] := by
      rw [optimize_ad_groups_for_budget, if_neg (by simp),
        if_pos (by rw [hspend]; norm_num)]
    refine all_cpc_ranges_valid.2.2 100 [gTwoKw] [gTwoKw] ?_ hopt gTwoKw (by simp)
    intro g hg
    have hg2 : g = gTwoKw := by simpa using hg
    subst hg2
    norm_num [gTwoKw]

/-! ## Partition lemmas for the rule-based classifier -/

theorem flatten_map_nil {α β : Type} (bs : List α) :
    (bs.map (fun _ => ([] : List β))).flatten = [] := by
  induction bs with
  | nil => rfl
  | cons b bs ih => simp [ih]

theorem bucket_order_count_one : ∀ b : Bucket, bucket_order.count b = 1 := by
  decide

theorem filter_cons_perm_step (k : Keyword) (ks : List Keyword) :
    ∀ (bs : List Bucket), bs.count (classify_keyword k) = 1 →
      List.Perm
        ((bs.map (fun b => (k :: ks).filter (fun x => b == classify_keyword x))).flatten)
        (k :: (bs.map (fun b => ks.filter (fun x => b == classify_keyword x))).flatten) := by
  intro bs
  induction bs with
  | nil => intro h; simp at h
  | cons b bs ih =>
    intro h
    rw [List.map_cons, List.map_cons, List.flatten_cons, List.flatten_cons]
    by_cases hb : b = classify_keyword k
    · have hcount : bs.count (classify_keyword k) = 0 := by
        subst hb
        simp [List.count_cons] at h
        omega
      have hnot : classify_keyword k ∉ bs := List.count_eq_zero.mp hcount
      have hmapeq : bs.map (fun c => (k :: ks).filter (fun x => c == classify_keyword x)) =
          bs.map (fun c => ks.filter (fun x => c == classify_keyword x)) := by
        apply List.map_congr_left
        intro c hc
        rw [List.filter_cons, if_neg ?hcond]
        case hcond =>
          simp only [beq_iff_eq]
          intro hceq
          exact hnot (hceq ▸ hc)
      rw [List.filter_cons, if_pos (by simp [hb]), hmapeq, List.cons_append]
    · have hcount : bs.count (classify_keyword k) = 1 := by
        rw [List.count_cons, if_neg (by simpa using hb), add_zero] at h
        exact h
      have hstep := ih hcount
      rw [List.filter_cons, if_neg (by simpa using hb)]
      exact (hstep.append_left _).trans List.perm_middle

theorem flatten_filters_perm (kws : List Keyword) :
    List.Perm
      ((bucket_order.map (fun b => kws.filter (fun x => b == classify_keyword x))).flatten)
      kws := by
  induction kws with
  | nil =>
    simp only [List.filter_nil]
    rw [flatten_map_nil]
  | cons k ks ih =>
    exact (filter_cons_perm_step k ks bucket_order
      (bucket_order_count_one (classify_keyword k))).trans (ih.cons k)

/-- C4: for every input list of scored keywords (and any group cap of at
least the 8 buckets, as with the default 15), the ad groups emitted by the
rule-based classifier form a partition of the input: the concatenation of
the groups' keyword lists is a permutation of the input (every input
keyword occurrence lands in exactly one group), and no keyword belongs to
two different groups. -/
theorem classifier_partition (kws : List Keyword) (max_groups : ℕ)
    (hmg : 8 ≤ max_groups) :
    List.Perm
      (((create_enhanced_rule_based_groups kws max_groups).map AdGroup.keywords).flatten)
      kws
    ∧ (∀ g1 ∈ create_enhanced_rule_based_groups kws max_groups,
       ∀ g2 ∈ create_enhanced_rule_based_groups kws max_groups,
       ∀ k : Keyword, k ∈ g1.keywords → k ∈ g2.keywords → g1 = g2) := by
  constructor
  · have key : ∀ bs : List Bucket,
        (((bs.filterMap (fun b =>
          if assign_buckets kws b = [] then none
          else some { name := bucket_name b
                      intent_category := bucket_intent b
                      keywords := assign_buckets kws b
                      suggested_cpc_range :=
                        calculate_group_cpc_range (assign_buckets kws b)
                      theme_description := bucket_description b })).map
            AdGroup.keywords).flatten)
          = (bs.map (fun b => assign_buckets kws b)).flatten := by
      intro bs
      induction bs with
      | nil => rfl
      | cons b bs ih =>
        rw [List.map_cons, List.flatten_cons, List.filterMap_cons]
        by_cases hb : assign_buckets kws b = []
        · rw [if_pos hb, ih, hb]
          rfl
        · rw [if_neg hb, List.map_cons, List.flatten_cons, ih]
    rw [create_enhanced_rule_based_groups]
    rw [List.take_of_length_le
      (le_trans (List.length_filterMap_le _ _) (by simpa [bucket_order] using hmg))]
    rw [key bucket_order,
      List.map_congr_left (fun b _ => assign_buckets_eq_filter kws b)]
    exact flatten_filters_perm kws
  · intro g1 hg1 g2 hg2 k hk1 hk2
    rcases mem_rule_based_groups hg1 with ⟨b1, _, rfl⟩
    rcases mem_rule_based_groups hg2 with ⟨b2, _, rfl⟩
    have e1 := (@mem_assign_buckets kws b1 k hk1).2
    have e2 := (@mem_assign_buckets kws b2 k hk2).2
    have hb : b1 = b2 := e1.symm.trans e2
    subst hb
    rfl

/-- Witness for C4 at a concrete input: the classifier output over a
one-keyword batch with the default group cap joins back to the input. -/
theorem classifier_partition_witness :
    List.Perm
      (((create_enhanced_rule_based_groups [kwHigh] 15).map AdGroup.keywords).flatten)
      [kwHigh] :=
  (classifier_partition [kwHigh] 15 (by norm_num)).1

/-! ## Deduplication lemmas (main.py) -/

theorem dedup_spec :
    ∀ (l : List RawKeywordData) (seen : List String),
      List.Sublist (dedup_by_key seen l) l ∧
      (∀ r ∈ dedup_by_key seen l, normalized_key r ≠ "" ∧ normalized_key r ∉ seen) ∧
      ((dedup_by_key seen l).map normalized_key).Nodup := by
  intro l
  induction l with
  | nil =>
    intro seen
    exact ⟨List.Sublist.refl _, by simp [dedup_by_key], by simp [dedup_by_key]⟩
  | cons r t ih =>
    intro seen
    simp only [dedup_by_key]
    by_cases hc : normalized_key r ≠ "" ∧ normalized_key r ∉ seen
    · rw [if_pos hc]
      obtain ⟨ih1, ih2, ih3⟩ := ih (normalized_key r :: seen)
      refine ⟨List.Sublist.cons₂ r ih1, ?_, ?_⟩
      · intro y hy
        rcases List.mem_cons.mp hy with rfl | hy2
        · exact hc
        · have hfy := ih2 y hy2
          exact ⟨hfy.1, fun hmem => hfy.2 (List.mem_cons_of_mem _ hmem)⟩
      · rw [List.map_cons]
        refine List.nodup_cons.mpr ⟨?_, ih3⟩
        intro hmem
        rcases List.mem_map.mp hmem with ⟨y, hy, hkeyeq⟩
        exact (ih2 y hy).2 (by rw [hkeyeq]; exact List.mem_cons_self _ _)
    · rw [if_neg hc]
      obtain ⟨ih1, ih2, ih3⟩ := ih seen
      exact ⟨ih1.cons r, ih2, ih3⟩

theorem dedup_fixed :
    ∀ (l : List RawKeywordData) (seen : List String),
      (∀ r ∈ l, normalized_key r ≠ "" ∧ normalized_key r ∉ seen) →
      (l.map normalized_key).Nodup →
      dedup_by_key seen l = l := by
  intro l
  induction l with
  | nil => intro seen _ _; rfl
  | cons r t ih =>
    intro seen hall hnd
    rw [List.map_cons, List.nodup_cons] at hnd
    simp only [dedup_by_key]
    rw [if_pos (hall r (List.mem_cons_self r t))]
    congr 1
    apply ih
    · intro y hy
      refine ⟨(hall y (List.mem_cons_of_mem r hy)).1, ?_⟩
      intro hmem
      rcases List.mem_cons.mp hmem with heq | hmem2
      · exact hnd.1 (heq ▸ List.mem_map_of_mem normalized_key hy)
      · exact (hall y (List.mem_cons_of_mem r hy)).2 hmem2
    · exact hnd.2

/-- C9: the consolidation/deduplication step of main.py is idempotent -
whenever it succeeds, applying it to its own output returns that output
unchanged (same records, same order) and does not raise. -/
theorem consolidate_idempotent (x out : List RawKeywordData)
    (h : consolidate_and_filter_keywords x = some out) :
    consolidate_and_filter_keywords out = some out := by
  simp only [consolidate_and_filter_keywords] at h
  by_cases hemp : (dedup_by_key []
      (x.filter is_real_data ++ x.filter is_untagged_data ++
        x.filter is_estimated_data)).filter volume_filter_keep = []
  · rw [if_pos hemp] at h
    exact Option.noConfusion h
  · rw [if_neg hemp] at h
    have hout : out = (dedup_by_key []
        (x.filter is_real_data ++ x.filter is_untagged_data ++
          x.filter is_estimated_data)).filter volume_filter_keep :=
      ((Option.some.injEq _ _).mp h).symm
    obtain ⟨hsub, hfresh, hnodup⟩ := dedup_spec
      (x.filter is_real_data ++ x.filter is_untagged_data ++
        x.filter is_estimated_data) []
    have houtsubU : List.Sublist out (dedup_by_key []
        (x.filter is_real_data ++ x.filter is_untagged_data ++
          x.filter is_estimated_data)) := by
      rw [hout]; exact List.filter_sublist _
    have houtsub2 : List.Sublist out
        (x.filter is_real_data ++ x.filter is_untagged_data ++
          x.filter is_estimated_data) := houtsubU.trans hsub
    rcases List.sublist_append_iff.mp houtsub2 with ⟨l1, l2, hout_eq, hl1, hl2⟩
    rcases List.sublist_append_iff.mp hl1 with ⟨l1a, l1b, hl1_eq, hl1a, hl1b⟩
    have hout_eq2 : out = l1a ++ l1b ++ l2 := by rw [hout_eq, hl1_eq]
    -- data-source class of each block
    have hAreal : ∀ r ∈ l1a, r.data_source = some "wordstream_real" := by
      intro r hr
      simpa [is_real_data] using List.of_mem_filter (hl1a.subset hr)
    have hBnone : ∀ r ∈ l1b, r.data_source = none := by
      intro r hr
      simpa [is_untagged_data] using List.of_mem_filter (hl1b.subset hr)
    have hCest : ∀ r ∈ l2, r.data_source = some "estimated" := by
      intro r hr
      simpa [is_estimated_data] using List.of_mem_filter (hl2.subset hr)
    -- re-partitioning the output gives back the same blocks
    have hfilterA : out.filter is_real_data = l1a := by
      rw [hout_eq2, List.filter_append, List.filter_append]
      rw [List.filter_eq_self.mpr
        (fun r hr => by simp [is_real_data, hAreal r hr])]
      rw [List.filter_eq_nil_iff.mpr
        (fun r hr => by simp [is_real_data, hBnone r hr])]
      rw [List.filter_eq_nil_iff.mpr
        (fun r hr => by simp [is_real_data, hCest r hr])]
      simp
    have hfilterB : out.filter is_untagged_data = l1b := by
      rw [hout_eq2, List.filter_append, List.filter_append]
      rw [List.filter_eq_nil_iff.mpr
        (fun r hr => by simp [is_untagged_data, hAreal r hr])]
      rw [List.filter_eq_self.mpr
        (fun r hr => by simp [is_untagged_data, hBnone r hr])]
      rw [List.filter_eq_nil_iff.mpr
        (fun r hr => by simp [is_untagged_data, hCest r hr])]
      simp
    have hfilterC : out.filter is_estimated_data = l2 := by
      rw [hout_eq2, List.filter_append, List.filter_append]
      rw [List.filter_eq_nil_iff.mpr
        (fun r hr => by simp [is_estimated_data, hAreal r hr])]
      rw [List.filter_eq_nil_iff.mpr
        (fun r hr => by simp [is_estimated_data, hBnone r hr])]
      rw [List.filter_eq_self.mpr
        (fun r hr => by simp [is_estimated_data, hCest r hr])]
      simp
    -- the output dedups to itself
    have hded2 : dedup_by_key []
        (out.filter is_real_data ++ out.filter is_untagged_data ++
          out.filter is_estimated_data) = out := by
      rw [hfilterA, hfilterB, hfilterC, ← hout_eq2]
      apply dedup_fixed
      · intro r hr
        exact ⟨(hfresh r (houtsubU.subset hr)).1, by simp⟩
      · exact hnodup.sublist (houtsubU.map normalized_key)
    -- the output passes the volume filter again
    have hkeep : ∀ r ∈ out, volume_filter_keep r := by
      rw [hout]
      intro r hr
      exact List.of_mem_filter hr
    have hne_out : out ≠ [] := by
      rw [hout]
      exact hemp
    simp only [consolidate_and_filter_keywords]
    rw [hded2, List.filter_eq_self.mpr hkeep, if_neg hne_out]

/-- Witness for C9 at a concrete input: a single real-data record. -/
theorem consolidate_idempotent_witness :
    consolidate_and_filter_keywords [rRealData] = some [rRealData] :=
  consolidate_idempotent [rRealData] [rRealData] (by decide)
